import Mathlib

/-!
Verification development for the halo2-demo repository.

The repository contains four circuit source files (a square-sum circuit, an
optimized single-chip circuit, a multi-chip circuit, and two range-check
circuits based on byte decomposition with lookups and on binary
decomposition).  The constraint-system engine itself (columns, gates,
lookup arguments, copy constraints, the mock verifier, the floor planner)
is an external collaborator; it is modelled here from the specification
(expression trees evaluated over a witness grid, a verify-all checker
producing a list of tagged failures, and single-pass monotone region/row
allocation).  Each circuit's gates and synthesis are translated directly
from the source files.
-/

namespace Halo2Demo

/-- Modelled from the spec: the polynomial expression language of the
constraint builder (design note §9: tagged variants ColumnRef / Constant /
Add / Sub / Mul, plus selector and fixed-column references), with advice
queries carrying a relative rotation (0 = current row, 1 = next row). -/
inductive Expr (F : Type) where
  | advice (col : Nat) (rot : Nat)
  | fixedCol (col : Nat)
  | sel (s : Nat)
  | const (c : F)
  | add (a b : Expr F)
  | sub (a b : Expr F)
  | mul (a b : Expr F)

/-- Modelled from the spec: the witness grid — advice and fixed values per
(column, row), and per-row boolean selector flags.  Unassigned cells read
as 0 (they only ever occur on rows where every relevant selector is off). -/
structure Grid (F : Type) where
  advice : Nat → Nat → F
  fixed : Nat → Nat → F
  selector : Nat → Nat → Bool

/-- Modelled from the spec: evaluate an expression against the grid at a
given row; a selector evaluates to 1 when enabled and 0 otherwise. -/
def Expr.eval [CommRing F] (g : Grid F) (row : Nat) : Expr F → F
  | .advice c r => g.advice c (row + r)
  | .fixedCol c => g.fixed c row
  | .sel s => if g.selector s row then 1 else 0
  | .const c => c
  | .add a b => a.eval g row + b.eval g row
  | .sub a b => a.eval g row - b.eval g row
  | .mul a b => a.eval g row * b.eval g row

/-- A named gate: its polynomial must vanish at every row. -/
structure GateDef (F : Type) where
  name : String
  poly : Expr F

/-- A lookup argument: the input expression's value must be a member of the
table at every row. -/
structure LookupArg (F : Type) where
  input : Expr F
  table : List F

/-- The output of synthesis: the witness grid, the recorded copy
constraints between advice cells ((col, row) pairs), and the advice cells
bound to instance rows. -/
structure Assignment (F : Type) where
  grid : Grid F
  copies : List ((Nat × Nat) × (Nat × Nat))
  instCells : List ((Nat × Nat) × Nat)

/-- Modelled from the spec: the four verification-failure kinds of the
verification report (§4.5/§6), each with locating coordinates. -/
inductive VerifyFailure (F : Type) where
  | GateViolation (gate : Nat) (row : Nat)
  | LookupMiss (lookup : Nat) (row : Nat)
  | CopyMismatch (a b : Nat × Nat)
  | InstanceMismatch (row : Nat) (expected actual : F)
  deriving DecidableEq

/-- Modelled from the spec: gate checking — for every gate, for every row,
the gate's expression (which carries its guarding selector as a factor)
must evaluate to the additive identity. -/
def verifyGates [CommRing F] [DecidableEq F] (gates : List (GateDef F))
    (n : Nat) (g : Grid F) : List (VerifyFailure F) :=
  (List.range gates.length).flatMap fun gi =>
    (List.range n).filterMap fun row =>
      match gates[gi]? with
      | none => none
      | some gate =>
        if gate.poly.eval g row = 0 then none
        else some (.GateViolation gi row)

/-- Modelled from the spec: lookup checking — for every lookup argument,
for every row, the input expression's value must be present in the table. -/
def verifyLookups [CommRing F] [DecidableEq F] (lookups : List (LookupArg F))
    (n : Nat) (g : Grid F) : List (VerifyFailure F) :=
  (List.range lookups.length).flatMap fun li =>
    (List.range n).filterMap fun row =>
      match lookups[li]? with
      | none => none
      | some lk =>
        if lk.input.eval g row ∈ lk.table then none
        else some (.LookupMiss li row)

/-- Modelled from the spec: copy-constraint checking — both cells of every
recorded copy constraint must hold equal values. -/
def verifyCopies [DecidableEq F] (copies : List ((Nat × Nat) × (Nat × Nat)))
    (g : Grid F) : List (VerifyFailure F) :=
  copies.filterMap fun c =>
    if g.advice c.1.1 c.1.2 = g.advice c.2.1 c.2.2 then none
    else some (.CopyMismatch c.1 c.2)

/-- Modelled from the spec: instance checking — every advice cell bound to
an instance row must match the claimed public value. -/
def verifyInstances [CommRing F] [DecidableEq F]
    (binds : List ((Nat × Nat) × Nat)) (g : Grid F) (inst : List F) :
    List (VerifyFailure F) :=
  binds.filterMap fun b =>
    let expected := inst.getD b.2 0
    let actual := g.advice b.1.1 b.1.2
    if actual = expected then none
    else some (.InstanceMismatch b.2 expected actual)

/-- Modelled from the spec: the full verify-all checker — gate checks, then
lookup checks, then copy-constraint checks, then instance checks, all
exhaustive, failures collected in order. -/
def verify [CommRing F] [DecidableEq F] (gates : List (GateDef F))
    (lookups : List (LookupArg F)) (n : Nat) (asn : Assignment F)
    (inst : List F) : List (VerifyFailure F) :=
  verifyGates gates n asn.grid ++ verifyLookups lookups n asn.grid
    ++ verifyCopies asn.copies asn.grid
    ++ verifyInstances asn.instCells asn.grid inst

/-! ## Square-sum circuit (`src/basic/basic_chip.rs`)

Columns: advice 0, 1, 2; one instance column.  Selectors: `s_square` = 0,
`s_add` = 1. -/

namespace SquareSum

variable (F : Type) [CommRing F]

/-- The "square" gate from `SquareSumChip::configure`:
`s_square * (a * a - a_squared)` with `a` = advice 0 and `a_squared` =
advice 1, both at the current row. -/
def square_gate : GateDef F :=
  { name := "square"
    poly := .mul (.sel 0) (.sub (.mul (.advice 0 0) (.advice 0 0)) (.advice 1 0)) }

/-- The "add" gate from `SquareSumChip::configure`:
`s_add * (a + b - c)` over advice 0, 1, 2 at the current row. -/
def add_gate : GateDef F :=
  { name := "add"
    poly := .mul (.sel 1) (.sub (.add (.advice 0 0) (.advice 1 0)) (.advice 2 0)) }

/-- The gate list of the square-sum constraint system, in registration
order. -/
def gates : List (GateDef F) := [square_gate F, add_gate F]

variable {F}

/-- The witness grid produced by `SquareSumCircuit::synthesize` on private
inputs `a`, `b`: the single-pass floor planner places the five single-row
regions (load a, load b, square a, square b, add) at rows 0–4. -/
def grid (a b : F) : Grid F where
  advice := fun c r =>
    if c = 0 ∧ r = 0 then a
    else if c = 0 ∧ r = 1 then b
    else if c = 0 ∧ r = 2 then a
    else if c = 1 ∧ r = 2 then a * a
    else if c = 0 ∧ r = 3 then b
    else if c = 1 ∧ r = 3 then b * b
    else if c = 0 ∧ r = 4 then a * a
    else if c = 1 ∧ r = 4 then b * b
    else if c = 2 ∧ r = 4 then a * a + b * b
    else 0
  fixed := fun _ _ => 0
  selector := fun s r => (s == 0 && (r == 2 || r == 3)) || (s == 1 && r == 4)

/-- The copy constraints recorded by `copy_advice` during synthesis:
a into the square region, b into the square region, a² and b² into the
add region. -/
def copies : List ((Nat × Nat) × (Nat × Nat)) :=
  [((0, 0), (0, 2)), ((0, 1), (0, 3)), ((1, 2), (0, 4)), ((1, 3), (1, 4))]

/-- The instance binding recorded by `expose_public`: the add region's
output cell (advice 2, row 4) against instance row 0. -/
def instCells : List ((Nat × Nat) × Nat) := [((2, 4), 0)]

/-- The full synthesis output for private inputs `a`, `b`. -/
def assignment (a b : F) : Assignment F :=
  { grid := grid a b, copies := copies, instCells := instCells }

/-- Number of rows the verifier scans (the five occupied rows). -/
def numRows : Nat := 5

variable (F) in
/-- Run verification of the square-sum circuit on private inputs `a`, `b`
against the public input list `inst`. -/
def run [DecidableEq F] (a b : F) (inst : List F) : List (VerifyFailure F) :=
  verify (gates F) [] numRows (assignment a b) inst

end SquareSum
/-! ## Optimized single-chip circuit (`src/basic/basic_middle.rs`)

Columns: advice 0, 1, 2; one fixed column (index 0); one instance column.
Selectors: `s_add` = 0, `s_mul` = 1, `s_sq` = 2. -/

namespace Optimized

variable (F : Type) [CommRing F]

/-- The "add_gate" gate from `OptimizedFieldChip::configure`:
`s_add * (a0 + a1 + a2 - sum)` with `sum` = advice 0 at the next row. -/
def add_gate : GateDef F :=
  { name := "add_gate"
    poly := .mul (.sel 0)
      (.sub (.add (.add (.advice 0 0) (.advice 1 0)) (.advice 2 0)) (.advice 0 1)) }

/-- The "mul_gate" gate from `OptimizedFieldChip::configure`:
`s_mul * (a0 * a1 * const_val - a2)`. -/
def mul_gate : GateDef F :=
  { name := "mul_gate"
    poly := .mul (.sel 1)
      (.sub (.mul (.mul (.advice 0 0) (.advice 1 0)) (.fixedCol 0)) (.advice 2 0)) }

/-- The "square_gate" gate from `OptimizedFieldChip::configure`:
`s_sq * (a0 * a0 - a0_sq)` with `a0_sq` = advice 0 at the next row. -/
def square_gate : GateDef F :=
  { name := "square_gate"
    poly := .mul (.sel 2)
      (.sub (.mul (.advice 0 0) (.advice 0 0)) (.advice 0 1)) }

/-- The gate list, in registration order. -/
def gates : List (GateDef F) := [add_gate F, mul_gate F, square_gate F]

variable {F}

/-- The witness grid produced by `OptimizedCircuit::synthesize` on private
inputs `a`, `b` with fixed constant `k`: the single-pass floor planner
places the regions load a (row 0), load b (row 1), square a (rows 2–3),
square b (rows 4–5), mul (row 6), add three (rows 7–8). -/
def grid (a b k : F) : Grid F where
  advice := fun c r =>
    if c = 0 ∧ r = 0 then a
    else if c = 0 ∧ r = 1 then b
    else if c = 0 ∧ r = 2 then a
    else if c = 0 ∧ r = 3 then a * a
    else if c = 0 ∧ r = 4 then b
    else if c = 0 ∧ r = 5 then b * b
    else if c = 0 ∧ r = 6 then a
    else if c = 1 ∧ r = 6 then b
    else if c = 2 ∧ r = 6 then a * b * k
    else if c = 0 ∧ r = 7 then a * a
    else if c = 1 ∧ r = 7 then b * b
    else if c = 2 ∧ r = 7 then a * b * k
    else if c = 0 ∧ r = 8 then a * a + b * b + a * b * k
    else 0
  fixed := fun c r => if c = 0 ∧ r = 6 then k else 0
  selector := fun s r =>
    (s == 0 && r == 7) || (s == 1 && r == 6) || (s == 2 && (r == 2 || r == 4))

/-- The copy constraints recorded by `copy_advice` during synthesis. -/
def copies : List ((Nat × Nat) × (Nat × Nat)) :=
  [((0, 0), (0, 2)), ((0, 1), (0, 4)), ((0, 0), (0, 6)), ((0, 1), (1, 6)),
   ((0, 3), (0, 7)), ((0, 5), (1, 7)), ((2, 6), (2, 7))]

/-- The instance binding from `expose_public`: the add-three output cell
(advice 0, row 8) against instance row 0. -/
def instCells : List ((Nat × Nat) × Nat) := [((0, 8), 0)]

/-- The full synthesis output. -/
def assignment (a b k : F) : Assignment F :=
  { grid := grid a b k, copies := copies, instCells := instCells }

/-- Number of rows the verifier scans (the nine occupied rows). -/
def numRows : Nat := 9

variable (F) in
/-- Run verification of the optimized circuit on private inputs `a`, `b`
and constant `k` against the public input list `inst`. -/
def run [DecidableEq F] (a b k : F) (inst : List F) : List (VerifyFailure F) :=
  verify (gates F) [] numRows (assignment a b k) inst

end Optimized
/-! ## Multi-chip circuit (`src/basic/multi_chip_design.rs`)

Columns, in allocation order of `MultiChipCircuit::configure`: one instance
column; square chip advice 0, 1; add chip advice 2, 3, 4, 5; mul chip
advice 6, 7, 8 and fixed column 0.  Selectors, in allocation order:
`s_square` = 0, `s_add` = 1, `s_mul` = 2. -/

namespace MultiChip

variable (F : Type) [CommRing F]

/-- The "square_gate" gate from `SquareChip::configure`:
`s_square * (input * input - output)` over the square chip's advice
columns 0 and 1. -/
def square_gate : GateDef F :=
  { name := "square_gate"
    poly := .mul (.sel 0)
      (.sub (.mul (.advice 0 0) (.advice 0 0)) (.advice 1 0)) }

/-- The "add_three_gate" gate from `AddChip::configure`:
`s_add * (a + b + c - sum)` over the add chip's advice columns 2–5. -/
def add_three_gate : GateDef F :=
  { name := "add_three_gate"
    poly := .mul (.sel 1)
      (.sub (.add (.add (.advice 2 0) (.advice 3 0)) (.advice 4 0)) (.advice 5 0)) }

/-- The "mul_with_constant_gate" gate from `MulChip::configure`:
`s_mul * (a * b * constant - product)` over the mul chip's advice columns
6–8 and the fixed column. -/
def mul_with_constant_gate : GateDef F :=
  { name := "mul_with_constant_gate"
    poly := .mul (.sel 2)
      (.sub (.mul (.mul (.advice 6 0) (.advice 7 0)) (.fixedCol 0)) (.advice 8 0)) }

/-- The gate list, in registration order (square chip configured first,
then add chip, then mul chip). -/
def gates : List (GateDef F) :=
  [square_gate F, add_three_gate F, mul_with_constant_gate F]

variable {F}

/-- The witness grid produced by `MultiChipCircuit::synthesize` on private
inputs `a`, `b` with constant `k`: the single-pass floor planner places
the single-row regions load a (row 0), load b (row 1) — both in the square
chip's first advice column — then square a (row 2), square b (row 3),
mul (row 4), add (row 5). -/
def grid (a b k : F) : Grid F where
  advice := fun c r =>
    if c = 0 ∧ r = 0 then a
    else if c = 0 ∧ r = 1 then b
    else if c = 0 ∧ r = 2 then a
    else if c = 1 ∧ r = 2 then a * a
    else if c = 0 ∧ r = 3 then b
    else if c = 1 ∧ r = 3 then b * b
    else if c = 6 ∧ r = 4 then a
    else if c = 7 ∧ r = 4 then b
    else if c = 8 ∧ r = 4 then a * b * k
    else if c = 2 ∧ r = 5 then a * a
    else if c = 3 ∧ r = 5 then b * b
    else if c = 4 ∧ r = 5 then a * b * k
    else if c = 5 ∧ r = 5 then a * a + b * b + a * b * k
    else 0
  fixed := fun c r => if c = 0 ∧ r = 4 then k else 0
  selector := fun s r =>
    (s == 0 && (r == 2 || r == 3)) || (s == 1 && r == 5) || (s == 2 && r == 4)

/-- The cell where region "load a" places the private input `a`: the
square chip's first advice column, row 0. -/
def loadACell : Nat × Nat := (0, 0)

/-- The cell where region "load b" places the private input `b`: the
square chip's first advice column, row 1. -/
def loadBCell : Nat × Nat := (0, 1)

/-- The copy constraints recorded by `copy_advice` during synthesis: `a`
and `b` into the square regions, `a` and `b` into the mul region, and the
three partial results into the add region. -/
def copies : List ((Nat × Nat) × (Nat × Nat)) :=
  [(loadACell, (0, 2)), (loadBCell, (0, 3)), (loadACell, (6, 4)), (loadBCell, (7, 4)),
   ((1, 2), (2, 5)), ((1, 3), (3, 5)), ((8, 4), (4, 5))]

/-- The instance binding from `constrain_instance`: the add chip's sum cell
(advice 5, row 5) against instance row 0. -/
def instCells : List ((Nat × Nat) × Nat) := [((5, 5), 0)]

/-- The full synthesis output. -/
def assignment (a b k : F) : Assignment F :=
  { grid := grid a b k, copies := copies, instCells := instCells }

/-- Number of rows the verifier scans (the six occupied rows). -/
def numRows : Nat := 6

variable (F) in
/-- Run verification of the multi-chip circuit on private inputs `a`, `b`
and constant `k` against the public input list `inst`. -/
def run [DecidableEq F] (a b k : F) (inst : List F) : List (VerifyFailure F) :=
  verify (gates F) [] numRows (assignment a b k) inst

end MultiChip
/-! ## Byte-decomposition range check (`src/lookup/large_range_analysis.rs`,
scheme 1)

Columns: `value` = advice 0, `bytes[i]` = advice 1 + i; one lookup-table
column.  Selectors: `s_decomp` = 0, `s_lookup` = 1. -/

namespace BitDecomp

variable (F : Type) [CommRing F]

/-- The table built by `BitDecompositionConfig::load_byte_table`: 256
cells, cell `i` holding `F::from(i)` for every `i` in `0..256`. -/
def load_byte_table : List F := (List.range 256).map (Nat.cast ·)

/-- The "bit_decomposition" gate:
`s_decomp * (value - (byte0 + byte1*256 + byte2*256² + byte3*256³))`. -/
def bit_decomposition_gate : GateDef F :=
  { name := "bit_decomposition"
    poly := .mul (.sel 0)
      (.sub (.advice 0 0)
        (.add (.add (.add (.advice 1 0) (.mul (.advice 2 0) (.const 256)))
            (.mul (.advice 3 0) (.const 65536)))
          (.mul (.advice 4 0) (.const 16777216)))) }

/-- The gate list (a single gate). -/
def gates : List (GateDef F) := [bit_decomposition_gate F]

/-- The four per-byte lookup arguments, registered in byte order: input
`s_lookup * byte_val` against the shared byte table. -/
def lookups : List (LookupArg F) :=
  [{ input := .mul (.sel 1) (.advice 1 0), table := load_byte_table F },
   { input := .mul (.sel 1) (.advice 2 0), table := load_byte_table F },
   { input := .mul (.sel 1) (.advice 3 0), table := load_byte_table F },
   { input := .mul (.sel 1) (.advice 4 0), table := load_byte_table F }]

variable {F}

/-- The witness grid produced by
`BitDecompositionConfig::assign_and_decompose` on a 32-bit value `v`
(modelled as a natural number below `2^32`): on the single decomposition
row both selectors are enabled, the value cell holds `F::from(v)` and the
byte cells hold `F::from((v >> 8i) & 0xFF)`. -/
def grid (v : ℕ) : Grid F where
  advice := fun c r =>
    if c = 0 ∧ r = 0 then (v : F)
    else if c = 1 ∧ r = 0 then ((v &&& 255 : ℕ) : F)
    else if c = 2 ∧ r = 0 then ((v >>> 8 &&& 255 : ℕ) : F)
    else if c = 3 ∧ r = 0 then ((v >>> 16 &&& 255 : ℕ) : F)
    else if c = 4 ∧ r = 0 then ((v >>> 24 &&& 255 : ℕ) : F)
    else 0
  fixed := fun _ _ => 0
  selector := fun s r => (s == 0 || s == 1) && r == 0

/-- The full synthesis output: no copy constraints and no instance
bindings are recorded by this circuit. -/
def assignment (v : ℕ) : Assignment F :=
  { grid := grid v, copies := [], instCells := [] }

/-- Number of rows the verifier scans (the decomposition row plus one
empty row, exercising the inactive-row path). -/
def numRows : Nat := 2

variable (F) in
/-- Run verification of the byte-decomposition circuit on value `v` (no
public inputs). -/
def run [DecidableEq F] (v : ℕ) : List (VerifyFailure F) :=
  verify (gates F) (lookups F) numRows (assignment v) []

/-- One step of `BitDecompositionCircuit::synthesize`, which first loads
the lookup table and then assigns the decomposition region. -/
inductive SynthStep where
  | loadTable
  | assignRegion (rname : String)
  deriving DecidableEq

/-- The synthesis steps of `BitDecompositionCircuit::synthesize`, in
order: `load_byte_table` once, then `assign_and_decompose` once. -/
def synthSteps : List SynthStep := [.loadTable, .assignRegion "bit decomposition"]

end BitDecomp
/-! ## Binary-decomposition range check (`src/lookup/large_range_analysis.rs`,
scheme 2)

Columns: `value` = advice 0, `bits[i]` = advice 1 + i for `i` in `0..32`.
Selectors: `s_binary` = 0, `s_composition` = 1. -/

namespace BinaryRange

variable (F : Type) [CommRing F]

/-- The i-th "binary_constraint" gate from `BinaryRangeConfig::configure`:
`s_binary * bit * (bit - 1)` over the bit column `bits[i]` = advice 1 + i. -/
def binary_constraint_gate (i : Nat) : GateDef F :=
  { name := "binary_constraint"
    poly := .mul (.mul (.sel 0) (.advice (1 + i) 0))
      (.sub (.advice (1 + i) 0) (.const 1)) }

/-- The "composition_constraint" expression built by the configure loop:
starting from the constant 0, add `bit_i * 2^i` for each `i` in `0..32`. -/
def composition_expr : Expr F :=
  (List.range 32).foldl
    (fun acc i => .add acc (.mul (.advice (1 + i) 0) (.const ((2 ^ i : ℕ) : F))))
    (.const 0)

/-- The "composition_constraint" gate:
`s_composition * (value - Σ bit_i * 2^i)`. -/
def composition_constraint_gate : GateDef F :=
  { name := "composition_constraint"
    poly := .mul (.sel 1) (.sub (.advice 0 0) (composition_expr F)) }

/-- The gate list, in registration order: the 32 binary-constraint gates
(one per bit column, in bit order), then the composition gate. -/
def gates : List (GateDef F) :=
  (List.range 32).map (binary_constraint_gate F) ++ [composition_constraint_gate F]

variable {F}

/-- The witness grid produced by `BinaryRangeConfig::assign_and_decompose`
on a 32-bit value `v`: on the single decomposition row both selectors are
enabled, the value cell holds `F::from(v)` and bit cell `i` holds
`F::from((v >> i) & 1)`. -/
def grid (v : ℕ) : Grid F where
  advice := fun c r =>
    if r = 0 then
      if c = 0 then (v : F)
      else if c ≤ 32 then ((v >>> (c - 1) &&& 1 : ℕ) : F)
      else 0
    else 0
  fixed := fun _ _ => 0
  selector := fun s r => (s == 0 || s == 1) && r == 0

/-- The full synthesis output: no copy constraints and no instance
bindings are recorded by this circuit. -/
def assignment (v : ℕ) : Assignment F :=
  { grid := grid v, copies := [], instCells := [] }

/-- Number of rows the verifier scans (the single decomposition row). -/
def numRows : Nat := 1

variable (F) in
/-- Run verification of the binary-range circuit on value `v` (no public
inputs). -/
def run [DecidableEq F] (v : ℕ) : List (VerifyFailure F) :=
  verify (gates F) [] numRows (assignment v) []

end BinaryRange

/-- Modelled from the spec: pointwise equality of two witness grids — the
state of an "unmutated" grid between two verification runs. -/
def Grid.Pointwise {F : Type} (g g' : Grid F) : Prop :=
  (∀ c r, g.advice c r = g'.advice c r)
    ∧ (∀ c r, g.fixed c r = g'.fixed c r)
    ∧ ∀ s r, g.selector s r = g'.selector s r

/-- A deliberately tampered binary-range witness over `ZMod 97`: every bit
cell holds 2, violating `bit·(bit-1) = 0` wherever `s_binary` is enabled. -/
def BinaryRange.tamperedGrid : Grid (ZMod 97) where
  advice := fun _ _ => 2
  fixed := fun _ _ => 0
  selector := fun _ _ => true

/-! ## Auxiliary instances -/

/-- The prime 97 provides `ZMod 97` as a field usable for concrete
witnesses. -/
instance : Fact (Nat.Prime 97) := ⟨by norm_num⟩

/-! ## Theorems -/


theorem SquareSum.squareSum_gates_pass (F : Type) [Field F] [DecidableEq F] (a b : F) :
    verifyGates (gates F) numRows (grid a b) = [] := by
  simp only [verifyGates, gates, numRows]
  simp only [List.flatMap_eq_nil_iff, List.mem_range, List.filterMap_eq_nil_iff,
    List.length_cons, List.length_nil]
  intro gi hgi row hrow
  interval_cases gi <;> interval_cases row <;>
    norm_num [grid, square_gate, add_gate, Expr.eval]

theorem SquareSum.squareSum_copies_pass (F : Type) [Field F] [DecidableEq F] (a b : F) :
    verifyCopies copies (grid a b) = [] := by
  simp only [verifyCopies, copies]
  simp only [List.filterMap_eq_nil_iff, List.mem_cons, List.not_mem_nil, or_false]
  intro c hc
  rcases hc with h | h | h | h <;> (subst h; norm_num [grid])

theorem SquareSum.squareSum_run_ok (F : Type) [Field F] [DecidableEq F] (a b : F) :
    SquareSum.run F a b [a * a + b * b] = [] := by
  simp only [run, verify, assignment, squareSum_gates_pass, squareSum_copies_pass,
    List.nil_append, List.append_nil]
  simp [verifyGates, verifyLookups, verifyInstances, instCells, grid]

theorem SquareSum.squareSum_run_wrong (F : Type) [Field F] [DecidableEq F] (a b w : F)
    (hw : w ≠ a * a + b * b) :
    SquareSum.run F a b [w] = [.InstanceMismatch 0 w (a * a + b * b)] := by
  simp only [run, verify, assignment, squareSum_gates_pass, squareSum_copies_pass,
    List.nil_append, List.append_nil]
  simp [verifyGates, verifyLookups, verifyInstances, instCells, grid, Ne.symm hw]


theorem Optimized.optimized_gates_pass (F : Type) [Field F] [DecidableEq F] (a b k : F) :
    verifyGates (gates F) numRows (grid a b k) = [] := by
  simp only [verifyGates, gates, numRows]
  simp only [List.flatMap_eq_nil_iff, List.mem_range, List.filterMap_eq_nil_iff,
    List.length_cons, List.length_nil]
  intro gi hgi row hrow
  interval_cases gi <;> interval_cases row <;>
    norm_num [grid, add_gate, mul_gate, square_gate, Expr.eval]

theorem Optimized.optimized_copies_pass (F : Type) [Field F] [DecidableEq F] (a b k : F) :
    verifyCopies copies (grid a b k) = [] := by
  simp only [verifyCopies, copies]
  simp only [List.filterMap_eq_nil_iff, List.mem_cons, List.not_mem_nil, or_false]
  intro c hc
  rcases hc with h | h | h | h | h | h | h <;> (subst h; norm_num [grid])

theorem Optimized.optimized_run_ok (F : Type) [Field F] [DecidableEq F] (a b k : F) :
    Optimized.run F a b k [a * a + b * b + a * b * k] = [] := by
  simp only [run, verify, assignment, optimized_gates_pass, optimized_copies_pass,
    List.nil_append, List.append_nil]
  simp [verifyGates, verifyLookups, verifyInstances, instCells, grid]

theorem Optimized.optimized_run_wrong (F : Type) [Field F] [DecidableEq F] (a b k w : F)
    (hw : w ≠ a * a + b * b + a * b * k) :
    Optimized.run F a b k [w]
      = [.InstanceMismatch 0 w (a * a + b * b + a * b * k)] := by
  simp only [run, verify, assignment, optimized_gates_pass, optimized_copies_pass,
    List.nil_append, List.append_nil]
  simp [verifyGates, verifyLookups, verifyInstances, instCells, grid, Ne.symm hw]


theorem MultiChip.multiChip_gates_pass (F : Type) [Field F] [DecidableEq F] (a b k : F) :
    verifyGates (gates F) numRows (grid a b k) = [] := by
  simp only [verifyGates, gates, numRows]
  simp only [List.flatMap_eq_nil_iff, List.mem_range, List.filterMap_eq_nil_iff,
    List.length_cons, List.length_nil]
  intro gi hgi row hrow
  interval_cases gi <;> interval_cases row <;>
    norm_num [grid, square_gate, add_three_gate, mul_with_constant_gate, Expr.eval]

theorem MultiChip.multiChip_copies_pass (F : Type) [Field F] [DecidableEq F] (a b k : F) :
    verifyCopies copies (grid a b k) = [] := by
  simp only [verifyCopies, copies, loadACell, loadBCell]
  simp only [List.filterMap_eq_nil_iff, List.mem_cons, List.not_mem_nil, or_false]
  intro c hc
  rcases hc with h | h | h | h | h | h | h <;> (subst h; norm_num [grid])

theorem MultiChip.multiChip_run_ok (F : Type) [Field F] [DecidableEq F] (a b k : F) :
    MultiChip.run F a b k [a * a + b * b + a * b * k] = [] := by
  simp only [run, verify, assignment, multiChip_gates_pass, multiChip_copies_pass,
    List.nil_append, List.append_nil]
  simp [verifyGates, verifyLookups, verifyInstances, instCells, grid]

theorem MultiChip.multiChip_run_wrong (F : Type) [Field F] [DecidableEq F] (a b k w : F)
    (hw : w ≠ a * a + b * b + a * b * k) :
    MultiChip.run F a b k [w]
      = [.InstanceMismatch 0 w (a * a + b * b + a * b * k)] := by
  simp only [run, verify, assignment, multiChip_gates_pass, multiChip_copies_pass,
    List.nil_append, List.append_nil]
  simp [verifyGates, verifyLookups, verifyInstances, instCells, grid, Ne.symm hw]


/-- The recomposition of the four extracted bytes equals the original
value, for values below `2^32`. -/
theorem BitDecomp.byte_sum (v : ℕ) (hv : v < 2 ^ 32) :
    (v &&& 255) + (v >>> 8 &&& 255) * 256 + (v >>> 16 &&& 255) * 65536
      + (v >>> 24 &&& 255) * 16777216 = v := by
  have h0 := Nat.and_pow_two_sub_one_eq_mod v 8
  have h1 := Nat.and_pow_two_sub_one_eq_mod (v >>> 8) 8
  have h2 := Nat.and_pow_two_sub_one_eq_mod (v >>> 16) 8
  have h3 := Nat.and_pow_two_sub_one_eq_mod (v >>> 24) 8
  have s1 := Nat.shiftRight_eq_div_pow v 8
  have s2 := Nat.shiftRight_eq_div_pow v 16
  have s3 := Nat.shiftRight_eq_div_pow v 24
  norm_num at h0 h1 h2 h3 s1 s2 s3 hv
  rw [h0, h1, h2, h3, s1, s2, s3]
  omega

/-- The decomposition gate vanishes on the decomposition row. -/
theorem BitDecomp.gate_eval_zero (F : Type) [CommRing F] (v : ℕ) (hv : v < 2 ^ 32) :
    (bit_decomposition_gate F).poly.eval (grid v) 0 = 0 := by
  have h := congrArg (Nat.cast : ℕ → F) (byte_sum v hv)
  push_cast at h
  simp only [bit_decomposition_gate, Expr.eval, grid]
  norm_num
  linear_combination -h

/-- Every byte value cast into the field is a member of the byte table. -/
theorem BitDecomp.cast_mem_table (F : Type) [CommRing F] (b : ℕ) (hb : b < 256) :
    ((b : ℕ) : F) ∈ load_byte_table F :=
  List.mem_map.mpr ⟨b, List.mem_range.mpr hb, rfl⟩


/-- Evaluating the fold-built composition expression amounts to folding
the per-bit weighted values. -/
theorem BinaryRange.composition_foldl (F : Type) [CommRing F] (g : Grid F)
    (row : Nat) (l : List ℕ) (e : Expr F) :
    (l.foldl
        (fun acc i => Expr.add acc (.mul (.advice (1 + i) 0) (.const ((2 ^ i : ℕ) : F))))
        e).eval g row
      = l.foldl (fun x i => x + g.advice (1 + i) row * ((2 ^ i : ℕ) : F))
          (e.eval g row) := by
  induction l generalizing e with
  | nil => rfl
  | cons hd tl ih =>
    rw [List.foldl_cons, List.foldl_cons, ih]
    rfl

/-- Recomposing the 32 extracted bits yields the original value, for
values below `2^32`. -/
theorem BinaryRange.bit_sum (v : ℕ) (hv : v < 2 ^ 32) :
    ∑ i ∈ Finset.range 32, (v >>> i &&& 1) * 2 ^ i = v := by
  simp only [Finset.sum_range_succ, Finset.sum_range_zero, Nat.and_one_is_mod,
    Nat.shiftRight_eq_div_pow]
  norm_num
  omega

/-- Folding additions of `h i` over `List.range n` computes the sum of
`h` over `Finset.range n`. -/
theorem BinaryRange.foldl_add_range (F : Type) [CommRing F] (h : ℕ → F) :
    ∀ (n : ℕ) (x : F),
      (List.range n).foldl (fun acc i => acc + h i) x
        = x + ∑ i ∈ Finset.range n, h i := by
  intro n
  induction n with
  | zero => simp
  | succ m ih =>
    intro x
    rw [List.range_succ, List.foldl_append, List.foldl_cons, List.foldl_nil, ih,
      Finset.sum_range_succ, add_assoc]

/-- The fold-built composition expression evaluates to the weighted sum of
the bit cells. -/
theorem BinaryRange.composition_eval (F : Type) [CommRing F] (g : Grid F) (row : Nat) :
    (composition_expr F).eval g row
      = ∑ i ∈ Finset.range 32, g.advice (1 + i) row * ((2 ^ i : ℕ) : F) := by
  rw [composition_expr, composition_foldl, foldl_add_range]
  simp [Expr.eval]

/-- On the witness grid, the weighted sum of the 32 bit cells equals the
cast of the original value, for values below `2^32`. -/
theorem BinaryRange.grid_bit_sum (F : Type) [CommRing F] (v : ℕ) (hv : v < 2 ^ 32) :
    ∑ i ∈ Finset.range 32, (grid v (F := F)).advice (1 + i) 0 * ((2 ^ i : ℕ) : F)
      = (v : F) := by
  have hcongr : ∀ i ∈ Finset.range 32,
      (grid v (F := F)).advice (1 + i) 0 * ((2 ^ i : ℕ) : F)
        = (((v >>> i &&& 1) * 2 ^ i : ℕ) : F) := by
    intro i hi
    rw [Finset.mem_range] at hi
    have h32 : 1 + i ≤ 32 := by omega
    simp [grid, h32]
  rw [Finset.sum_congr rfl hcongr, ← Nat.cast_sum, bit_sum v hv]

/-- The composition gate vanishes on the decomposition row. -/
theorem BinaryRange.composition_gate_zero (F : Type) [CommRing F] (v : ℕ)
    (hv : v < 2 ^ 32) :
    (composition_constraint_gate F).poly.eval (grid v) 0 = 0 := by
  have h := bit_sum v hv
  simp only [Finset.sum_range_succ, Finset.sum_range_zero, Nat.and_one_is_mod,
    Nat.shiftRight_zero] at h
  have h2 := congrArg (Nat.cast : ℕ → F) h
  push_cast at h2
  simp only [composition_constraint_gate, Expr.eval]
  norm_num [grid]
  linear_combination -h2

/-- Every binary-constraint gate vanishes on the decomposition row of the
witness grid: each assigned bit is 0 or 1. -/
theorem BinaryRange.binary_gate_zero (F : Type) [CommRing F] (v i : ℕ)
    (hi : i < 32) :
    (binary_constraint_gate F i).poly.eval (grid v) 0 = 0 := by
  have h32 : 1 + i ≤ 32 := by omega
  have h : v >>> i &&& 1 = v >>> i % 2 := Nat.and_one_is_mod _
  rcases Nat.mod_two_eq_zero_or_one (v >>> i) with h2 | h2 <;>
    simp [binary_constraint_gate, Expr.eval, grid, h32, h, h2]

/-- Indexing the gate list below 32 yields the matching binary-constraint
gate (the gate that queries bit column `1 + i`). -/
theorem BinaryRange.gates_getElem_lt (F : Type) [CommRing F] (i : ℕ) (hi : i < 32) :
    (gates F)[i]? = some (binary_constraint_gate F i) := by
  simp [gates, List.getElem?_append, hi]

/-- Indexing the gate list at 32 yields the composition gate. -/
theorem BinaryRange.gates_getElem_32 (F : Type) [CommRing F] :
    (gates F)[32]? = some (composition_constraint_gate F) := by
  simp [gates, List.getElem?_append]

/-- The binary-range circuit verifies successfully on any value below
`2^32`. -/
theorem BinaryRange.binaryRange_run_ok (F : Type) [Field F] [DecidableEq F] (v : ℕ)
    (hv : v < 2 ^ 32) : BinaryRange.run F v = [] := by
  simp only [run, verify, assignment, verifyLookups, verifyCopies, verifyInstances,
    numRows, List.filterMap_nil, List.append_nil, List.length_nil, List.range_zero,
    List.flatMap_nil]
  simp only [verifyGates, List.flatMap_eq_nil_iff, List.mem_range,
    List.filterMap_eq_nil_iff]
  intro gi hgi row hrow
  interval_cases row
  have hlen : (gates F).length = 33 := by simp [gates]
  rw [hlen] at hgi
  rcases Nat.lt_or_ge gi 32 with h32 | h32
  · rw [gates_getElem_lt F gi h32]
    simp [binary_gate_zero F v gi h32]
  · have hg : gi = 32 := by omega
    subst hg
    rw [gates_getElem_32 F]
    simp [composition_gate_zero F v hv]



theorem BitDecomp.bitDecomp_run_ok (F : Type) [Field F] [DecidableEq F] (v : ℕ)
    (hv : v < 2 ^ 32) : BitDecomp.run F v = [] := by
  simp only [run, verify, assignment, verifyCopies, verifyInstances,
    List.filterMap_nil, List.append_nil]
  simp only [List.append_eq_nil, verifyGates, verifyLookups,
    List.flatMap_eq_nil_iff, List.mem_range, List.filterMap_eq_nil_iff,
    List.length_cons, List.length_nil, numRows, gates, lookups]
  constructor
  · intro gi hgi row hrow
    interval_cases gi
    interval_cases row
    · simp only [gates, List.getElem?_cons_zero]
      simp [gate_eval_zero F v hv]
    · simp [gates, bit_decomposition_gate, Expr.eval, grid]
  · intro li hli row hrow
    have h255 : ∀ m : ℕ, m &&& 255 < 256 :=
      fun m => lt_of_le_of_lt Nat.and_le_right (by norm_num)
    have hm : ∀ m : ℕ, ((m &&& 255 : ℕ) : F) ∈ load_byte_table F :=
      fun m => cast_mem_table F _ (h255 m)
    have h0 : (0 : F) ∈ load_byte_table F := by
      simpa using cast_mem_table F 0 (by norm_num)
    interval_cases li <;> interval_cases row <;>
      simp [lookups, Expr.eval, grid, hm v, hm (v >>> 8), hm (v >>> 16),
        hm (v >>> 24), h0]

theorem BitDecomp.table_getD (F : Type) [CommRing F] (i : ℕ) (hi : i < 256) :
    (load_byte_table F).getD i 0 = (i : F) := by
  rw [load_byte_table, List.getD_eq_getElem?_getD]
  simp [List.getElem?_map, List.getElem?_range hi]

/-! ## The claims -/

/-- C1: for every pair of field values (a, b), synthesizing the square-sum
circuit with private inputs a and b and verifying against the public input
c = a² + b² succeeds, and verifying the same circuit against the public
input c + 1 fails with an InstanceMismatch failure. -/
theorem claim_C1_square_sum_verification (F : Type) [Field F] [DecidableEq F]
    (a b c : F) (hc : c = a * a + b * b) :
    SquareSum.run F a b [c] = []
      ∧ SquareSum.run F a b [c + 1] = [.InstanceMismatch 0 (c + 1) c] := by
  subst hc
  refine ⟨SquareSum.squareSum_run_ok F a b, SquareSum.squareSum_run_wrong F a b _ ?_⟩
  simp

/-- Witness for C1 at a = 3, b = 4, c = 25 over ZMod 97. -/
theorem claim_C1_square_sum_verification_witness :
    (25 : ZMod 97) = 3 * 3 + 4 * 4
      ∧ (SquareSum.run (ZMod 97) 3 4 [25] = []
          ∧ SquareSum.run (ZMod 97) 3 4 [25 + 1]
              = [.InstanceMismatch 0 (25 + 1) 25]) :=
  ⟨by decide, claim_C1_square_sum_verification (ZMod 97) 3 4 25 (by decide)⟩

/-- C2: for every triple of field values (a, b, k), both the optimized
single-chip circuit and the multi-chip circuit, synthesized with private
inputs a and b and constant k, verify successfully against the public
value out = a² + b² + a·b·k, and fail verification (with an
InstanceMismatch failure) against any public value different from out. -/
theorem claim_C2_optimized_and_multichip (F : Type) [Field F] [DecidableEq F]
    (a b k out : F) (hout : out = a * a + b * b + a * b * k) :
    (Optimized.run F a b k [out] = [] ∧ MultiChip.run F a b k [out] = [])
      ∧ ∀ w, w ≠ out →
          Optimized.run F a b k [w] = [.InstanceMismatch 0 w out]
            ∧ MultiChip.run F a b k [w] = [.InstanceMismatch 0 w out] := by
  subst hout
  exact ⟨⟨Optimized.optimized_run_ok F a b k, MultiChip.multiChip_run_ok F a b k⟩,
    fun w hw => ⟨Optimized.optimized_run_wrong F a b k w hw, MultiChip.multiChip_run_wrong F a b k w hw⟩⟩

/-- Witness for C2 at a = 4, b = 5, k = 3, out = 101 over ZMod 97, with
the failing run taken at the wrong public value 7. -/
theorem claim_C2_optimized_and_multichip_witness :
    ((101 : ZMod 97) = 4 * 4 + 5 * 5 + 4 * 5 * 3 ∧ (7 : ZMod 97) ≠ 101)
      ∧ (Optimized.run (ZMod 97) 4 5 3 [7] = [.InstanceMismatch 0 7 101]
          ∧ MultiChip.run (ZMod 97) 4 5 3 [7] = [.InstanceMismatch 0 7 101]) :=
  ⟨⟨by decide, by decide⟩,
    (claim_C2_optimized_and_multichip (ZMod 97) 4 5 3 101 (by decide)).2 7 (by decide)⟩

/-- C7: for the concrete inputs a = 3, b = 4 the square-sum circuit
verifies successfully against public output 25; for a = 4, b = 5, k = 3
both the optimized circuit and the multi-chip circuit verify successfully
against public output 101. -/
theorem claim_C7_concrete_scenarios (F : Type) [Field F] [DecidableEq F] :
    SquareSum.run F 3 4 [25] = []
      ∧ Optimized.run F 4 5 3 [101] = []
      ∧ MultiChip.run F 4 5 3 [101] = [] := by
  refine ⟨?_, ?_, ?_⟩
  · have h := SquareSum.squareSum_run_ok F 3 4
    rw [show (3 : F) * 3 + 4 * 4 = 25 by norm_num] at h
    exact h
  · have h := Optimized.optimized_run_ok F 4 5 3
    rw [show (4 : F) * 4 + 5 * 5 + 4 * 5 * 3 = 101 by norm_num] at h
    exact h
  · have h := MultiChip.multiChip_run_ok F 4 5 3
    rw [show (4 : F) * 4 + 5 * 5 + 4 * 5 * 3 = 101 by norm_num] at h
    exact h

/-- C3: for every unsigned 32-bit integer v, the byte-decomposition range
check verifies successfully, the four limb cells on the decomposition row
hold exactly (v >> 8i) & 0xFF for i = 0..3, and the decomposition gate
value = byte0 + byte1·256 + byte2·256² + byte3·256³ is satisfied (its
expression vanishes) on that row. -/
theorem claim_C3_byte_decomposition (F : Type) [Field F] [DecidableEq F]
    (v : ℕ) (hv : v < 2 ^ 32) :
    BitDecomp.run F v = []
      ∧ (∀ i < 4, (BitDecomp.grid v (F := F)).advice (1 + i) 0
            = ((v >>> (8 * i) &&& 255 : ℕ) : F))
      ∧ (BitDecomp.bit_decomposition_gate F).poly.eval (BitDecomp.grid v) 0 = 0 := by
  refine ⟨BitDecomp.bitDecomp_run_ok F v hv, ?_, BitDecomp.gate_eval_zero F v hv⟩
  intro i hi
  interval_cases i <;> norm_num [BitDecomp.grid]

/-- Witness for C3 at v = 0x12345678 over ZMod 97. -/
theorem claim_C3_byte_decomposition_witness :
    (305419896 : ℕ) < 2 ^ 32
      ∧ (BitDecomp.run (ZMod 97) 305419896 = []
          ∧ (∀ i < 4, (BitDecomp.grid 305419896 (F := ZMod 97)).advice (1 + i) 0
                = ((305419896 >>> (8 * i) &&& 255 : ℕ) : ZMod 97))
          ∧ (BitDecomp.bit_decomposition_gate (ZMod 97)).poly.eval
              (BitDecomp.grid 305419896) 0 = 0) :=
  ⟨by norm_num, claim_C3_byte_decomposition (ZMod 97) 305419896 (by norm_num)⟩

/-- C4: for every unsigned 32-bit integer v, the binary-decomposition range
check verifies successfully, the 32 bit cells on the decomposition row
satisfy Σ bit_i · 2^i = v, and the composition gate evaluates to zero on
that row. -/
theorem claim_C4_binary_decomposition (F : Type) [Field F] [DecidableEq F]
    (v : ℕ) (hv : v < 2 ^ 32) :
    BinaryRange.run F v = []
      ∧ ∑ i ∈ Finset.range 32,
          (BinaryRange.grid v (F := F)).advice (1 + i) 0 * ((2 ^ i : ℕ) : F) = (v : F)
      ∧ (BinaryRange.composition_constraint_gate F).poly.eval (BinaryRange.grid v) 0
          = 0 :=
  ⟨BinaryRange.binaryRange_run_ok F v hv, BinaryRange.grid_bit_sum F v hv,
    BinaryRange.composition_gate_zero F v hv⟩

/-- Witness for C4 at v = 0xFFFFFFFF over ZMod 97. -/
theorem claim_C4_binary_decomposition_witness :
    (4294967295 : ℕ) < 2 ^ 32
      ∧ (BinaryRange.run (ZMod 97) 4294967295 = []
          ∧ ∑ i ∈ Finset.range 32,
              (BinaryRange.grid 4294967295 (F := ZMod 97)).advice (1 + i) 0
                * ((2 ^ i : ℕ) : ZMod 97) = ((4294967295 : ℕ) : ZMod 97)
          ∧ (BinaryRange.composition_constraint_gate (ZMod 97)).poly.eval
              (BinaryRange.grid 4294967295) 0 = 0) :=
  ⟨by norm_num, claim_C4_binary_decomposition (ZMod 97) 4294967295 (by norm_num)⟩

/-- C6: load_byte_table populates the lookup table with every integer in
[0, 2^8) exactly once — the table has 256 cells and the cell at index i
holds F::from(i) for all i in 0..256 — and it is invoked exactly once per
circuit synthesis. -/
theorem claim_C6_byte_table (F : Type) [CommRing F] :
    (BitDecomp.load_byte_table F).length = 256
      ∧ (∀ i < 256, (BitDecomp.load_byte_table F).getD i 0 = (i : F))
      ∧ BitDecomp.synthSteps.count BitDecomp.SynthStep.loadTable = 1 := by
  refine ⟨by simp [BitDecomp.load_byte_table], ?_, by decide⟩
  intro i hi
  exact BitDecomp.table_getD F i hi

/-- Witness for C6 over ZMod 97, checking the table cell at index 200. -/
theorem claim_C6_byte_table_witness :
    (200 : ℕ) < 256
      ∧ (BitDecomp.load_byte_table (ZMod 97)).getD 200 0 = ((200 : ℕ) : ZMod 97) :=
  ⟨by norm_num, (claim_C6_byte_table (ZMod 97)).2.1 200 (by norm_num)⟩

/-- C10: in the multi-chip circuit, the private inputs a and b are both
loaded into the square chip's first advice column (column 0) in two
single-row regions placed at distinct absolute rows (0 and 1), so the two
assignments never collide, and the square and mul chips receive a and b
via copy constraints from those two cells. -/
theorem claim_C10_multichip_column_sharing (F : Type) [CommRing F] (a b k : F) :
    (MultiChip.loadACell.1 = 0 ∧ MultiChip.loadBCell.1 = 0
        ∧ MultiChip.loadACell.2 ≠ MultiChip.loadBCell.2)
      ∧ ((MultiChip.grid a b k).advice MultiChip.loadACell.1 MultiChip.loadACell.2 = a
          ∧ (MultiChip.grid a b k).advice MultiChip.loadBCell.1 MultiChip.loadBCell.2 = b)
      ∧ ((MultiChip.loadACell, (0, 2)) ∈ MultiChip.copies
          ∧ (MultiChip.loadBCell, (0, 3)) ∈ MultiChip.copies
          ∧ (MultiChip.loadACell, (6, 4)) ∈ MultiChip.copies
          ∧ (MultiChip.loadBCell, (7, 4)) ∈ MultiChip.copies) := by
  refine ⟨⟨rfl, rfl, by decide⟩, ⟨?_, ?_⟩, ?_⟩
  · norm_num [MultiChip.grid, MultiChip.loadACell]
  · norm_num [MultiChip.grid, MultiChip.loadBCell]
  · refine ⟨?_, ?_, ?_, ?_⟩ <;> simp [MultiChip.copies]


/-- C5: for every witness of the binary-range circuit in which a bit cell
(column 1 + i, the bit i column) on a row r with s_binary enabled holds a
value w with w·(w−1) ≠ 0, verification fails with a GateViolation for gate
index i — the binary-constraint gate querying that bit's column — at row r. -/
theorem claim_C5_bit_tamper_gate_violation (F : Type) [Field F] [DecidableEq F]
    (g : Grid F) (n r i : ℕ) (hi : i < 32) (hr : r < n)
    (hsel : g.selector 0 r = true)
    (hw : g.advice (1 + i) r * (g.advice (1 + i) r - 1) ≠ 0) :
    (BinaryRange.gates F)[i]? = some (BinaryRange.binary_constraint_gate F i)
      ∧ VerifyFailure.GateViolation i r
          ∈ verify (BinaryRange.gates F) [] n ⟨g, [], []⟩ [] := by
  refine ⟨BinaryRange.gates_getElem_lt F i hi, ?_⟩
  rw [verify]
  refine List.mem_append_left _ (List.mem_append_left _ (List.mem_append_left _ ?_))
  rw [verifyGates]
  rw [List.mem_flatMap]
  refine ⟨i, List.mem_range.mpr ?_, ?_⟩
  · have hlen : (BinaryRange.gates F).length = 33 := by
      simp [BinaryRange.gates]
    omega
  · rw [List.mem_filterMap]
    refine ⟨r, List.mem_range.mpr hr, ?_⟩
    rw [BinaryRange.gates_getElem_lt F i hi]
    have heval : (BinaryRange.binary_constraint_gate F i).poly.eval g r
        = g.advice (1 + i) r * (g.advice (1 + i) r - 1) := by
      simp [BinaryRange.binary_constraint_gate, Expr.eval, hsel]
    simp only [heval, if_neg hw]

/-- Witness for C5: the all-2 tampered grid over ZMod 97 at bit 0, row 0. -/
theorem claim_C5_bit_tamper_gate_violation_witness :
    ((0 : ℕ) < 32 ∧ (0 : ℕ) < 1
        ∧ BinaryRange.tamperedGrid.selector 0 0 = true
        ∧ BinaryRange.tamperedGrid.advice 1 0
            * (BinaryRange.tamperedGrid.advice 1 0 - 1) ≠ 0)
      ∧ ((BinaryRange.gates (ZMod 97))[0]?
            = some (BinaryRange.binary_constraint_gate (ZMod 97) 0)
          ∧ VerifyFailure.GateViolation 0 0
              ∈ verify (BinaryRange.gates (ZMod 97)) [] 1
                  ⟨BinaryRange.tamperedGrid, [], []⟩ []) :=
  ⟨⟨by norm_num, by norm_num, rfl, by decide⟩,
    claim_C5_bit_tamper_gate_violation (ZMod 97) BinaryRange.tamperedGrid 1 0 0
      (by norm_num) (by norm_num) rfl (by decide)⟩


/-- Evaluation of an expression depends only on the pointwise values of the
witness grid. -/
theorem Expr.eval_congr (F : Type) [CommRing F] {g g' : Grid F}
    (h : Grid.Pointwise g g') (row : Nat) :
    ∀ e : Expr F, e.eval g' row = e.eval g row := by
  intro e
  induction e with
  | advice c r => exact (h.1 c (row + r)).symm
  | fixedCol c => exact (h.2.1 c row).symm
  | sel s => rw [Expr.eval, Expr.eval, h.2.2 s row]
  | const c => rfl
  | add a b iha ihb => rw [Expr.eval, Expr.eval, iha, ihb]
  | sub a b iha ihb => rw [Expr.eval, Expr.eval, iha, ihb]
  | mul a b iha ihb => rw [Expr.eval, Expr.eval, iha, ihb]

/-- C8: verification is deterministic — for a fixed constraint system,
re-running verification on the same instance values and an unmutated
witness grid (pointwise equal values, same copy constraints and instance
bindings) yields the identical result list. -/
theorem claim_C8_verification_deterministic (F : Type) [CommRing F] [DecidableEq F]
    (gs : List (GateDef F)) (lks : List (LookupArg F)) (n : ℕ)
    (asn asn' : Assignment F) (inst : List F)
    (hg : Grid.Pointwise asn.grid asn'.grid)
    (hc : asn.copies = asn'.copies) (hb : asn.instCells = asn'.instCells) :
    verify gs lks n asn' inst = verify gs lks n asn inst := by
  obtain ⟨g, cps, bds⟩ := asn
  obtain ⟨g', cps', bds'⟩ := asn'
  simp only at hg hc hb
  subst hc
  subst hb
  rw [verify, verify]
  have h1 : verifyGates gs n g' = verifyGates gs n g := by
    rw [verifyGates, verifyGates]
    congr 1
    funext gi
    congr 1
    funext row
    cases hG : gs[gi]? with
    | none => rfl
    | some gate => simp only [Expr.eval_congr F hg row]
  have h2 : verifyLookups lks n g' = verifyLookups lks n g := by
    rw [verifyLookups, verifyLookups]
    congr 1
    funext li
    congr 1
    funext row
    cases hL : lks[li]? with
    | none => rfl
    | some lk => simp only [Expr.eval_congr F hg row]
  have h3 : verifyCopies cps g' = verifyCopies cps g := by
    rw [verifyCopies, verifyCopies]
    apply List.filterMap_congr
    intro c hcm
    rw [hg.1 c.1.1 c.1.2, hg.1 c.2.1 c.2.2]
  have h4 : verifyInstances bds g' inst = verifyInstances bds g inst := by
    rw [verifyInstances, verifyInstances]
    apply List.filterMap_congr
    intro b hbm
    rw [hg.1 b.1.1 b.1.2]
  rw [h1, h2, h3, h4]

/-- Witness for C8 on the square-sum assignment at a = 3, b = 4 over
ZMod 97, with the second run reading the same unmutated grid. -/
theorem claim_C8_verification_deterministic_witness :
    (Grid.Pointwise (SquareSum.assignment (3 : ZMod 97) 4).grid
          (SquareSum.assignment (3 : ZMod 97) 4).grid
        ∧ (SquareSum.assignment (3 : ZMod 97) 4).copies
            = (SquareSum.assignment (3 : ZMod 97) 4).copies
        ∧ (SquareSum.assignment (3 : ZMod 97) 4).instCells
            = (SquareSum.assignment (3 : ZMod 97) 4).instCells)
      ∧ verify (SquareSum.gates (ZMod 97)) [] SquareSum.numRows
            (SquareSum.assignment (3 : ZMod 97) 4) [25]
          = verify (SquareSum.gates (ZMod 97)) [] SquareSum.numRows
              (SquareSum.assignment (3 : ZMod 97) 4) [25] :=
  ⟨⟨⟨fun _ _ => rfl, fun _ _ => rfl, fun _ _ => rfl⟩, rfl, rfl⟩,
    claim_C8_verification_deterministic (ZMod 97) (SquareSum.gates (ZMod 97)) []
      SquareSum.numRows (SquareSum.assignment 3 4) (SquareSum.assignment 3 4) [25]
      ⟨fun _ _ => rfl, fun _ _ => rfl, fun _ _ => rfl⟩ rfl rfl⟩


/-- C9: in the byte-decomposition circuit, on every row where s_lookup is
disabled, each registered lookup's input expression s_lookup · byte_val
evaluates to zero, zero is a member of the byte table, and therefore no
lookup failure is ever produced at such a row, for every witness grid. -/
theorem claim_C9_inactive_rows_no_lookup_miss (F : Type) [Field F] [DecidableEq F]
    (g : Grid F) (n r : ℕ) (hsel : g.selector 1 r = false) :
    (∀ lk ∈ BitDecomp.lookups F, lk.input.eval g r = 0)
      ∧ (0 : F) ∈ BitDecomp.load_byte_table F
      ∧ ∀ li, VerifyFailure.LookupMiss li r
          ∉ verifyLookups (BitDecomp.lookups F) n g := by
  have hzero : ∀ lk ∈ BitDecomp.lookups F, lk.input.eval g r = 0 := by
    intro lk hlk
    fin_cases hlk <;> simp [Expr.eval, hsel]
  have htab : ∀ lk ∈ BitDecomp.lookups F, lk.table = BitDecomp.load_byte_table F := by
    intro lk hlk
    fin_cases hlk <;> rfl
  have h0 : (0 : F) ∈ BitDecomp.load_byte_table F := by
    simpa using BitDecomp.cast_mem_table F 0 (by norm_num)
  refine ⟨hzero, h0, ?_⟩
  intro li hmem
  rw [verifyLookups, List.mem_flatMap] at hmem
  obtain ⟨li', _, hmem⟩ := hmem
  rw [List.mem_filterMap] at hmem
  obtain ⟨row, _, heq⟩ := hmem
  cases hL : (BitDecomp.lookups F)[li']? with
  | none => rw [hL] at heq; cases heq
  | some lk =>
    rw [hL] at heq
    dsimp only at heq
    by_cases hin : lk.input.eval g row ∈ lk.table
    · rw [if_pos hin] at heq
      cases heq
    · rw [if_neg hin] at heq
      rw [Option.some.injEq, VerifyFailure.LookupMiss.injEq] at heq
      obtain ⟨h1, h2⟩ := heq
      subst h2
      apply hin
      rw [hzero lk (List.getElem?_mem hL), htab lk (List.getElem?_mem hL)]
      exact h0

/-- Witness for C9: the byte-decomposition witness grid for v = 5 has
s_lookup disabled on row 1. -/
theorem claim_C9_inactive_rows_no_lookup_miss_witness :
    (BitDecomp.grid 5 (F := ZMod 97)).selector 1 1 = false
      ∧ ((∀ lk ∈ BitDecomp.lookups (ZMod 97),
            lk.input.eval (BitDecomp.grid 5) 1 = 0)
          ∧ (0 : ZMod 97) ∈ BitDecomp.load_byte_table (ZMod 97)
          ∧ ∀ li, VerifyFailure.LookupMiss li 1
              ∉ verifyLookups (BitDecomp.lookups (ZMod 97)) 2 (BitDecomp.grid 5)) :=
  ⟨rfl, claim_C9_inactive_rows_no_lookup_miss (ZMod 97) (BitDecomp.grid 5) 2 1 rfl⟩

end Halo2Demo
